import Mathlib

/-!
Verification of the MIC-engineering-prevalence scraper core
(`project_files/helpers.py` and `project_files/results.py`).

The Python source is shallowly embedded:
* strings are Lean `String`s, with the Python string operations modelled as
  executable functions on the underlying `List Char`;
* a parsed HTML document (`BeautifulSoup` object, an external collaborator)
  is the abstract structure `Soup` holding the paragraph texts, the texts of
  the qualifying bullet-list items, and the anchor `href` attributes that the
  extraction functions read from it;
* the network is a parameter `fetch : String → Option Soup`; `none` models
  `scrape_page` returning `None` after catching an HTTP/timeout/transport
  error;
* an uncaught Python exception is modelled with `Except PyError`;
* the module-level constant `military_terminology` (imported from the
  `keyword_list` module, which is not part of the sources being verified) is
  passed as an explicit list parameter.
-/

set_option autoImplicit false

namespace MIC

/-- Uncaught Python exceptions that the embedded code can raise. -/
inductive PyError where
  /-- `AttributeError`, e.g. calling `.find_all` on `None`. -/
  | attributeError
  /-- `ValueError`, e.g. tuple unpacking of `str.split` or a failing `int()`. -/
  | valueError
  /-- `KeyError` from a failing dictionary lookup. -/
  | keyError
  /-- `ZeroDivisionError` from integer/float division by zero. -/
  | zeroDivisionError
deriving DecidableEq

/-! ### Python string primitives -/

/-- Python `str.split()` (no separator): split on runs of whitespace,
dropping empty chunks.  `cur` is the reversed chunk being accumulated. -/
def pySplitAux : List Char → List Char → List String
  | [], cur => if cur = [] then [] else [⟨cur.reverse⟩]
  | c :: t, cur =>
    if c.isWhitespace then
      if cur = [] then pySplitAux t [] else ⟨cur.reverse⟩ :: pySplitAux t []
    else pySplitAux t (c :: cur)

/-- Python `s.split()` on a string. -/
def pySplit (s : String) : List String := pySplitAux s.data []

/-- Python `s.lower()` (the source only ever lowercases ASCII words). -/
def pyLower (s : String) : String := ⟨s.data.map Char.toLower⟩

/-- Python `s.startswith(pre)`. -/
def pyStartswith (s pre : String) : Bool := pre.data.isPrefixOf s.data

/-- Helper for Python's substring test: does `sub` occur in `l`? -/
def strInAux (sub : List Char) : List Char → Bool
  | [] => sub.isPrefixOf []
  | c :: t => sub.isPrefixOf (c :: t) || strInAux sub t

/-- Python `sub in s` (substring containment). -/
def pyIn (sub s : String) : Bool := strInAux sub.data s.data

/-- Python `s[n:]` (drop the first `n` characters). -/
def pyDrop (s : String) (n : Nat) : String := ⟨s.data.drop n⟩

/-- Python `' '.join(ws)`, producing the raw character list. -/
def pyJoinSpace : List String → List Char
  | [] => []
  | [w] => w.data
  | w :: ws => w.data ++ ' ' :: pyJoinSpace ws

/-- Python `s.strip()`: drop whitespace from both ends. -/
def pyStrip (l : List Char) : List Char :=
  ((l.dropWhile Char.isWhitespace).reverse.dropWhile Char.isWhitespace).reverse

/-! ### The parsed-document model -/

/-- Abstract model of a parsed HTML page (a `BeautifulSoup` object).
`paragraphs` holds `get_text()` of each `<p>` element in document order;
`bulletItems` holds `get_text()` of each `<li>` item of the unordered lists
that have a paragraph sibling on both sides (the condition tested by
`find_bullet_words`, resolved by the external HTML library); `anchorHrefs`
holds the `href` attribute of each `<a>` element, `none` when absent. -/
structure Soup where
  paragraphs : List String
  bulletItems : List String
  anchorHrefs : List (Option String)

/-- `scrape_page`: issue the GET for the title and parse, returning `none`
(Python `None`) when the request fails with an HTTP error status, a timeout,
or another transport error — all three excepts are caught and logged.
The network is the explicit parameter `fetch`. -/
def scrape_page (fetch : String → Option Soup) (title : String) : Option Soup :=
  fetch title

/-- `get_words_from_paragraphs`: whitespace-split the text of every
paragraph and concatenate, in document order. -/
def get_words_from_paragraphs (soup : Soup) : List String :=
  (soup.paragraphs.map pySplit).flatten

/-! ### The text cleaner -/

/-- The fixed punctuation set `filter_out` of `clean_words_list`. -/
def filter_out : List Char := ['.', ',', ':', '!', '?', ';', '"', '-', '(', ')']

/-- The character scan of `clean_words_list` on one token, written as the
explicit finite-state machine the index/`skip_next` loop implements: in state
`inCite = false` punctuation is dropped, `[` switches to the citation state,
and any other character is emitted; in state `inCite = true` every character
is dropped until the first `]`, which is itself dropped (`skip_next`) before
returning to the normal state.  An unterminated `[` discards the rest of the
token. -/
def cleanCharsAux : Bool → List Char → List Char
  | _, [] => []
  | true, c :: rest =>
    if c = ']' then cleanCharsAux false rest else cleanCharsAux true rest
  | false, c :: rest =>
    if c ∈ filter_out then cleanCharsAux false rest
    else if c = '[' then cleanCharsAux true rest
    else c :: cleanCharsAux false rest

/-- The per-token body of `clean_words_list`'s loop. -/
def clean_word (w : String) : String := ⟨cleanCharsAux false w.data⟩

/-- `clean_words_list`: clean each token; a token whose cleaned form is
empty contributes nothing. -/
def clean_words_list (words_list : List String) : List String :=
  words_list.filterMap fun w =>
    let cleaned_word := clean_word w
    if cleaned_word = "" then none else some cleaned_word

/-! ### Bullet lists -/

/-- Python `s.replace("\xa0–", "")` as used by `find_bullet_words`
(non-breaking space followed by an en-dash), leftmost non-overlapping. -/
def removeNbspDash : List Char → List Char
  | [] => []
  | [c] => [c]
  | c1 :: c2 :: rest =>
    if c1 = ' ' ∧ c2 = '–' then removeNbspDash rest
    else c1 :: removeNbspDash (c2 :: rest)

/-- `find_bullet_words`: the texts of the qualifying bullet items with the
`"\xa0–"` rendering artifact removed. -/
def find_bullet_words (soup : Soup) : List String :=
  soup.bulletItems.map fun item => ⟨removeNbspDash item.data⟩

/-- `clean_bullet_list`: whitespace-split each bullet text, concatenate, and
clean the resulting tokens. -/
def clean_bullet_list (bullet_lists_organized : List String) : List String :=
  clean_words_list ((bullet_lists_organized.map pySplit).flatten)

/-! ### Keyword matching -/

/-- `find_keyword_matches`: count the words whose lowercase form is a member
of `keyword_list`, collecting those lowercase forms in input order. -/
def find_keyword_matches (words_list keyword_list : List String) :
    Nat × List String :=
  match words_list with
  | [] => (0, [])
  | word :: rest =>
    let lowercase_word := pyLower word
    let r := find_keyword_matches rest keyword_list
    if lowercase_word ∈ keyword_list then (r.1 + 1, lowercase_word :: r.2)
    else r

/-! ### Links -/

/-- `find_links`: the `href` of every anchor, skipping anchors whose `href`
is absent or falsy (`if href:` is false for the empty string). -/
def find_links (soup : Soup) : List String :=
  soup.anchorHrefs.filterMap fun href =>
    match href with
    | none => none
    | some h => if h = "" then none else some h

/-- `filter_links`: first keep links starting with `"/wiki/"`, then drop any
link in which an element of `second_round_filter` occurs as a substring. -/
def filter_links (list_links : List String) : List String :=
  let list_links_filtered :=
    list_links.filter fun item => pyStartswith item "/wiki/"
  let second_round_filter : List String := ["/wiki/Main_page", ":"]
  list_links_filtered.filter fun item =>
    !second_round_filter.any fun filter_item => pyIn filter_item item

/-! ### Page aggregation and the one-hop traversal -/

/-- `find_all_matches`: scrape one page and aggregate its paragraph and
bullet words and matches.  When `scrape_page` returns `None`,
`get_words_from_paragraphs` evaluates `None.find_all("p")`, which raises
`AttributeError`; nothing in the source catches it. -/
def find_all_matches (fetch : String → Option Soup)
    (military_terminology : List String) (title : String) :
    Except PyError (List String × Nat × List String × Nat) :=
  match scrape_page fetch title with
  | none => .error .attributeError
  | some soup =>
    let words_list := get_words_from_paragraphs soup
    let cleaned_words_list := clean_words_list words_list
    let bullet_lists := find_bullet_words soup
    let cleaned_bullet_lists := clean_bullet_list bullet_lists
    let total_words := cleaned_words_list ++ cleaned_bullet_lists
    let m1 := find_keyword_matches cleaned_words_list military_terminology
    let m2 := find_keyword_matches cleaned_bullet_lists military_terminology
    .ok (m1.2 ++ m2.2, m1.1 + m2.1, total_words, total_words.length)

/-- The `for link in filtered_links` loop of `search_subpages`: run
`find_all_matches` on `link[6:]` and add the four result fields into the
running aggregate; an exception raised on any page aborts the loop. -/
def subpages_loop (fetch : String → Option Soup) (vocab : List String) :
    List String → List String → Nat → List String → Nat →
    Except PyError (List String × Nat × List String × Nat)
  | [], imw, imc, iw, iwc => .ok (imw, imc, iw, iwc)
  | link :: rest, imw, imc, iw, iwc =>
    match find_all_matches fetch vocab (pyDrop link 6) with
    | .error e => .error e
    | .ok (mw, mc, w, wc) =>
      subpages_loop fetch vocab rest (imw ++ mw) (imc + mc) (iw ++ w) (iwc + wc)

/-- `search_subpages`: re-scrape the seed page, filter its links, and fold
the per-subpage results into the seed page's already-computed fields.  As in
`find_all_matches`, a failed seed fetch leaves `soup = None` and
`find_links(None)` raises `AttributeError`. -/
def search_subpages (fetch : String → Option Soup) (vocab : List String)
    (title : String) (initial_matched_words : List String)
    (initial_match_count : Nat) (initial_words : List String)
    (initial_word_count : Nat) :
    Except PyError (List String × Nat × List String × Nat) :=
  match scrape_page fetch title with
  | none => .error .attributeError
  | some soup =>
    subpages_loop fetch vocab (filter_links (find_links soup))
      initial_matched_words initial_match_count initial_words
      initial_word_count

/-! ### `results.py`: the aggregate map and its four-file persistence

A Python dict is modelled as an association list in insertion order;
`dictInsert` has dict-assignment semantics (update in place if the key is
present, else append) and `dictGet` raises `KeyError` on a missing key.
A file is its content, a `List Char`; `write_to_files` returns the four
contents and `create_discipline_matches` consumes them. -/

/-- The per-topic aggregate stored under each discipline key. -/
structure DisciplineResult where
  final_matched_words : List String
  final_match_count : Nat
  total_words : List String
  total_word_count : Nat
deriving DecidableEq

/-- Python `d[k] = v` on an insertion-ordered dict. -/
def dictInsert {α : Type} (d : List (String × α)) (k : String) (v : α) :
    List (String × α) :=
  match d with
  | [] => [(k, v)]
  | (k', v') :: rest =>
    if k' = k then (k, v) :: rest else (k', v') :: dictInsert rest k v

/-- Python `d[k]`, raising `KeyError` when absent. -/
def dictGet {α : Type} (d : List (String × α)) (k : String) :
    Except PyError α :=
  match d with
  | [] => .error .keyError
  | (k', v) :: rest => if k' = k then .ok v else dictGet rest k

/-- One written line `f"{discipline}: {payload}\n"`. -/
def fileLine (discipline : String) (payload : List Char) : List Char :=
  discipline.data ++ ':' :: ' ' :: payload ++ ['\n']

/-- Decimal digit character, `0 ≤ d ≤ 9`. -/
def digitChar (d : Nat) : Char := Char.ofNat (48 + d)

/-- Fuelled decimal digits of `n` (the fuel `n + 1` always suffices). -/
def natDigitsAux : Nat → Nat → List Char
  | 0, _ => []
  | fuel + 1, n =>
    if n < 10 then [digitChar n]
    else natDigitsAux fuel (n / 10) ++ [digitChar (n % 10)]

/-- Python `f"{n}"` for a nonnegative int: its decimal digits. -/
def natRepr (n : Nat) : List Char := natDigitsAux (n + 1) n

/-- Python `int(s)` on the nonnegative decimal strings this program writes:
every character must be a digit and the string nonempty, else `ValueError`.
(The sign/underscore forms `int` also accepts are never produced by
`write_to_files` and are outside the model.) -/
def pyInt (l : List Char) : Except PyError Nat :=
  if l ≠ [] ∧ l.all Char.isDigit then
    .ok (l.foldl (fun acc c => acc * 10 + (c.toNat - 48)) 0)
  else .error .valueError

/-- `write_to_files`: each of the four files holds one line per discipline,
in dict order. -/
def write_to_files (discipline_matches : List (String × DisciplineResult)) :
    List Char × List Char × List Char × List Char :=
  ((discipline_matches.map fun p =>
      fileLine p.1 (pyJoinSpace p.2.final_matched_words)).flatten,
   (discipline_matches.map fun p =>
      fileLine p.1 (pyJoinSpace p.2.total_words)).flatten,
   (discipline_matches.map fun p =>
      fileLine p.1 (natRepr p.2.final_match_count)).flatten,
   (discipline_matches.map fun p =>
      fileLine p.1 (natRepr p.2.total_word_count)).flatten)

/-- Python file iteration: the maximal `'\n'`-terminated chunks of the
content, each keeping its `'\n'`, plus a final unterminated chunk if any. -/
def pyLinesAux : List Char → List Char → List (List Char)
  | [], acc => if acc = [] then [] else [acc.reverse]
  | c :: rest, acc =>
    if c = '\n' then (c :: acc).reverse :: pyLinesAux rest []
    else pyLinesAux rest (c :: acc)

/-- The lines of a file's content. -/
def pyLines (content : List Char) : List (List Char) := pyLinesAux content []

/-- Python `line.split(": ")`, specialised to the separator the source uses:
split at every non-overlapping occurrence of `": "`, leftmost first.  `acc`
is the reversed chunk being accumulated. -/
def splitOnColonSpace : List Char → List Char → List (List Char)
  | [], acc => [acc.reverse]
  | [c], acc => [(c :: acc).reverse]
  | c1 :: c2 :: rest, acc =>
    if c1 = ':' ∧ c2 = ' ' then acc.reverse :: splitOnColonSpace rest []
    else splitOnColonSpace (c2 :: rest) (c1 :: acc)

/-- The tuple unpacking `discipline, rhs = line.split(": ")`:
`ValueError` unless the split has exactly two parts. -/
def unpackTwo (parts : List (List Char)) : Except PyError (List Char × List Char) :=
  match parts with
  | [a, b] => .ok (a, b)
  | _ => .error .valueError

/-- The reload loop of `create_discipline_matches` over a words file:
`discipline, words = line.split(": "); words = words.strip().split();
dict[discipline] = words`; an uncaught exception aborts the loop. -/
def parseWordsLoop (lines : List (List Char))
    (d : List (String × List String)) :
    Except PyError (List (String × List String)) :=
  match lines with
  | [] => .ok d
  | line :: rest =>
    match unpackTwo (splitOnColonSpace line []) with
    | .error e => .error e
    | .ok (discipline, rhs) =>
      parseWordsLoop rest
        (dictInsert d ⟨discipline⟩ (pySplitAux (pyStrip rhs) []))

/-- Parse a whole matched-words or total-words file. -/
def parseWordsFile (content : List Char) :
    Except PyError (List (String × List String)) :=
  parseWordsLoop (pyLines content) []

/-- The reload loop of `create_discipline_matches` over a counts file:
`discipline, count = line.split(": "); count = int(count.strip());
dict[discipline] = count`; an uncaught exception aborts the loop. -/
def parseCountsLoop (lines : List (List Char)) (d : List (String × Nat)) :
    Except PyError (List (String × Nat)) :=
  match lines with
  | [] => .ok d
  | line :: rest =>
    match unpackTwo (splitOnColonSpace line []) with
    | .error e => .error e
    | .ok (discipline, rhs) =>
      match pyInt (pyStrip rhs) with
      | .error e => .error e
      | .ok count => parseCountsLoop rest (dictInsert d ⟨discipline⟩ count)

/-- Parse a whole match-counts or word-counts file. -/
def parseCountsFile (content : List Char) :
    Except PyError (List (String × Nat)) :=
  parseCountsLoop (pyLines content) []

/-- The final loop of `create_discipline_matches`: for each discipline of
the matched-words dict, look the other three dicts up and assemble the
aggregate record. -/
def buildFinalAux (total_words : List (String × List String))
    (final_match_counts total_word_counts : List (String × Nat)) :
    List (String × List String) → List (String × DisciplineResult) →
    Except PyError (List (String × DisciplineResult))
  | [], acc => .ok acc
  | (discipline, final_matched) :: rest, acc =>
    match dictGet final_match_counts discipline with
    | .error e => .error e
    | .ok c =>
      match dictGet total_words discipline with
      | .error e => .error e
      | .ok t =>
        match dictGet total_word_counts discipline with
        | .error e => .error e
        | .ok tc =>
          buildFinalAux total_words final_match_counts total_word_counts rest
            (dictInsert acc discipline ⟨final_matched, c, t, tc⟩)

/-- `create_discipline_matches`: parse the four files and assemble the
aggregate map keyed by discipline. -/
def create_discipline_matches (final_matched_words_file total_words_file
    final_match_counts_file total_word_counts_file : List Char) :
    Except PyError (List (String × DisciplineResult)) :=
  match parseWordsFile final_matched_words_file with
  | .error e => .error e
  | .ok final_matched_words =>
    match parseWordsFile total_words_file with
    | .error e => .error e
    | .ok total_words =>
      match parseCountsFile final_match_counts_file with
      | .error e => .error e
      | .ok final_match_counts =>
        match parseCountsFile total_word_counts_file with
        | .error e => .error e
        | .ok total_word_counts =>
          buildFinalAux total_words final_match_counts total_word_counts
            final_matched_words []

/-! ### The stacked-bar percentage computation -/

/-- Python `a / b` on ints: true division, `ZeroDivisionError` when `b = 0`.
The quotient is modelled exactly in `ℚ` (the claim concerns only the
zero-denominator behaviour, not floating-point rounding). -/
def pyDiv (a b : Nat) : Except PyError ℚ :=
  if b = 0 then .error .zeroDivisionError else .ok ((a : ℚ) / (b : ℚ))

/-- The accumulation loop of `plot_stacked_bar_graph`: for each topic,
`percentage = (final_match_count / total_word_count) * 100`, collecting the
percentages, total word counts and match counts that the chart then renders
(the rendering itself is an external collaborator). -/
def plot_stacked_bar_graph_data
    (discipline_matches : List (String × DisciplineResult)) :
    Except PyError (List ℚ × List Nat × List Nat) :=
  match discipline_matches with
  | [] => .ok ([], [], [])
  | (_, counts) :: rest =>
    match pyDiv counts.final_match_count counts.total_word_count with
    | .error e => .error e
    | .ok q =>
      match plot_stacked_bar_graph_data rest with
      | .error e => .error e
      | .ok (ps, ts, ms) =>
        .ok ((q * 100) :: ps, counts.total_word_count :: ts,
             counts.final_match_count :: ms)

/-! ## General lemmas about the embedded operations -/

/-- `find_keyword_matches` returns exactly the lowercased input words that
are vocabulary members, in input order, paired with their number. -/
theorem find_keyword_matches_spec (ws kw : List String) :
    find_keyword_matches ws kw =
      (((ws.map pyLower).filter fun w => decide (w ∈ kw)).length,
        (ws.map pyLower).filter fun w => decide (w ∈ kw)) := by
  induction ws with
  | nil => rfl
  | cons w rest ih =>
    simp only [find_keyword_matches, ih, List.map_cons, List.filter_cons]
    by_cases h : pyLower w ∈ kw
    · simp [h]
    · simp [h]

/-- The count returned by `find_keyword_matches` is the length of the
returned matched-words list. -/
theorem find_keyword_matches_count (ws kw : List String) :
    (find_keyword_matches ws kw).1 = (find_keyword_matches ws kw).2.length := by
  rw [find_keyword_matches_spec]

/-- Every character emitted by the cleaning scan is outside the punctuation
set and is not `'['`. -/
theorem mem_cleanCharsAux {c : Char} :
    ∀ {mode : Bool} {l : List Char}, c ∈ cleanCharsAux mode l →
      c ∉ filter_out ∧ c ≠ '[' := by
  intro mode l
  induction l generalizing mode with
  | nil => cases mode <;> simp [cleanCharsAux]
  | cons a t ih =>
    cases mode with
    | true =>
      simp only [cleanCharsAux]
      split
      · exact ih
      · exact ih
    | false =>
      simp only [cleanCharsAux]
      split
      · exact ih
      · split
        · exact ih
        · rename_i hpunct hbracket
          intro hc
          rcases List.mem_cons.mp hc with rfl | hc
          · exact ⟨hpunct, hbracket⟩
          · exact ih hc

/-- Cleaning a character list that contains no punctuation character and no
`'['` leaves it unchanged. -/
theorem cleanCharsAux_of_clean :
    ∀ {l : List Char}, (∀ c ∈ l, c ∉ filter_out ∧ c ≠ '[') →
      cleanCharsAux false l = l := by
  intro l
  induction l with
  | nil => intro _; rfl
  | cons a t ih =>
    intro h
    obtain ⟨ha1, ha2⟩ := h a (List.mem_cons_self a t)
    simp only [cleanCharsAux, if_neg ha1, if_neg ha2]
    rw [ih fun c hc => h c (List.mem_cons_of_mem a hc)]

/-- `clean_words_list` is the non-empty results of cleaning each token, in
token order. -/
theorem clean_words_list_eq_filter (ws : List String) :
    clean_words_list ws =
      (ws.map clean_word).filter fun w => decide (w ≠ "") := by
  induction ws with
  | nil => rfl
  | cons w rest ih =>
    simp only [clean_words_list, List.filterMap_cons, List.map_cons,
      List.filter_cons] at *
    by_cases h : clean_word w = ""
    · simp [h, ih]
    · simp [h, ih]

/-- Every word produced by `clean_words_list` is non-empty and free of
punctuation characters and of `'['`. -/
theorem mem_clean_words_list {ws : List String} {w : String}
    (hw : w ∈ clean_words_list ws) :
    w ≠ "" ∧ ∀ c ∈ w.data, c ∉ filter_out ∧ c ≠ '[' := by
  rw [clean_words_list_eq_filter] at hw
  obtain ⟨hmem, hne⟩ := List.mem_filter.mp hw
  obtain ⟨x, _, rfl⟩ := List.mem_map.mp hmem
  refine ⟨by simpa using hne, fun c hc => mem_cleanCharsAux hc⟩

/-- Cleaning a list of already-clean non-empty words is a no-op. -/
theorem clean_words_list_of_clean {ws : List String}
    (h : ∀ w ∈ ws, clean_word w = w ∧ w ≠ "") :
    clean_words_list ws = ws := by
  induction ws with
  | nil => rfl
  | cons w rest ih =>
    obtain ⟨hcw, hne⟩ := h w (List.mem_cons_self w rest)
    simp only [clean_words_list, List.filterMap_cons, hcw, if_neg hne]
    rw [show rest.filterMap _ = clean_words_list rest from rfl,
      ih fun x hx => h x (List.mem_cons_of_mem w hx)]

/-! ## C1, C2, C7, C9, C10 -/

/-- C1 (code bug): on a fetch failure `scrape_page` returns `None`, which
`find_all_matches` passes straight into `get_words_from_paragraphs`, so
`None.find_all("p")` raises `AttributeError` instead of producing the empty
results `([], 0, [], 0)`; and a traversal whose seed page has one filtered
link to a failing page aborts with the same error instead of continuing
with a zero contribution. -/
theorem c1_fetch_failure_raises_instead_of_empty_results :
    find_all_matches (fun _ => none) [] "Topic" = .error .attributeError ∧
    find_all_matches (fun _ => none) [] "Topic" ≠ .ok ([], 0, [], 0) ∧
    search_subpages
        (fun t => if t = "Seed" then some ⟨[], [], [some "/wiki/Sub"]⟩
          else none)
        [] "Seed" [] 0 [] 0 = .error .attributeError :=
  ⟨rfl, fun h => Except.noConfusion h, rfl⟩

/-- C2 counterexample: `"/wiki/Main_pages"` starts with `"/wiki/"`, differs
from `"/wiki/Main_page"` and contains no `":"`, so the claim requires
`filter_links` to keep it; the code drops it because the second filter
tests substring containment (`in`), not equality. -/
theorem c2_counterexample :
    pyStartswith "/wiki/Main_pages" "/wiki/" = true ∧
    "/wiki/Main_pages" ≠ "/wiki/Main_page" ∧
    pyIn ":" "/wiki/Main_pages" = false ∧
    filter_links ["/wiki/Main_pages"] ≠ ["/wiki/Main_pages"] := by
  refine ⟨by decide, by decide, by decide, ?_⟩
  intro h
  simp [filter_links, pyStartswith, pyIn, strInAux] at h

/-- C2 (amended): `filter_links` returns exactly those links that start
with `"/wiki/"`, do not contain the home-page link `"/wiki/Main_page"` as a
substring, and do not contain `":"` anywhere, order preserved and without
deduplication. -/
theorem c2_filter_links_characterization (list_links : List String) :
    filter_links list_links =
      list_links.filter fun item =>
        pyStartswith item "/wiki/" && !pyIn "/wiki/Main_page" item &&
          !pyIn ":" item := by
  unfold filter_links
  rw [List.filter_filter]
  refine List.filter_congr fun item _ => ?_
  simp only [List.any_cons, List.any_nil, Bool.or_false, Bool.not_or]
  cases pyStartswith item "/wiki/" <;> cases pyIn "/wiki/Main_page" item <;>
    cases pyIn ":" item <;> rfl

/-- C7: `find_keyword_matches` lowercases each word before the membership
test, appends the lowercased matches in input order with duplicates kept
(a word occurring twice and matching counts twice), and returns as count
the number of matching occurrences. -/
theorem c7_keyword_matcher_contract (ws kw : List String) :
    find_keyword_matches ws kw =
      (((ws.map pyLower).filter fun w => decide (w ∈ kw)).length,
        (ws.map pyLower).filter fun w => decide (w ∈ kw)) :=
  find_keyword_matches_spec ws kw

/-- C9: the percentage computation of `plot_stacked_bar_graph` divides by
the topic's total word count with no guard, so any aggregate map containing
a topic with zero total words makes it raise `ZeroDivisionError`. -/
theorem c9_zero_total_words_raises
    (dm : List (String × DisciplineResult))
    (h : ∃ p ∈ dm, p.2.total_word_count = 0) :
    plot_stacked_bar_graph_data dm = .error .zeroDivisionError := by
  induction dm with
  | nil => simp at h
  | cons hd tl ih =>
    obtain ⟨a, counts⟩ := hd
    obtain ⟨p, hp, hz⟩ := h
    rcases List.mem_cons.mp hp with rfl | hmem
    · simp only at hz
      simp [plot_stacked_bar_graph_data, pyDiv, hz]
    · by_cases h0 : counts.total_word_count = 0
      · simp [plot_stacked_bar_graph_data, pyDiv, h0]
      · have htl := ih ⟨p, hmem, hz⟩
        simp [plot_stacked_bar_graph_data, pyDiv, h0, htl]

/-- Witness for C9: a one-topic aggregate with zero total words. -/
theorem c9_witness :
    plot_stacked_bar_graph_data [("Topic", ⟨[], 0, [], 0⟩)] =
      .error .zeroDivisionError :=
  c9_zero_total_words_raises _ ⟨("Topic", ⟨[], 0, [], 0⟩), by decide, rfl⟩

/-- C10: a `']'` with no preceding `'['` in the same token survives
cleaning — `']'` is not in the punctuation set and only `'['` starts a
citation skip. -/
theorem c10_stray_rbracket_survives :
    clean_words_list ["a]b"] = ["a]b"] ∧ ']' ∉ filter_out := by
  constructor
  · rfl
  · decide

/-! ## C3 and C6: cleaner output purity and idempotence -/

/-- C3: `clean_words_list` keeps the cleaned tokens in input order, drops
exactly those whose cleaning is empty (never emitting an empty string), and
every emitted word contains no punctuation-set character and no `'['`. -/
theorem c3_cleaner_output_pure (ws : List String) :
    clean_words_list ws =
      ((ws.map clean_word).filter fun w => decide (w ≠ "")) ∧
    ∀ w ∈ clean_words_list ws,
      w ≠ "" ∧ ∀ c ∈ w.data, c ∉ filter_out ∧ c ≠ '[' :=
  ⟨clean_words_list_eq_filter ws, fun _ hw => mem_clean_words_list hw⟩

/-- Witness for C3 on the token `"a.b"`, cleaned to `"ab"`. -/
theorem c3_witness :
    ("ab" : String) ≠ "" ∧
      ∀ c ∈ ("ab" : String).data, c ∉ filter_out ∧ c ≠ '[' :=
  (c3_cleaner_output_pure ["a.b"]).2 "ab" (by decide)

/-- C6: `clean_words_list` is idempotent — already-clean words pass through
unchanged. -/
theorem c6_cleaner_idempotent (ws : List String) :
    clean_words_list (clean_words_list ws) = clean_words_list ws := by
  apply clean_words_list_of_clean
  intro w hw
  obtain ⟨hne, hchars⟩ := mem_clean_words_list hw
  refine ⟨?_, hne⟩
  show (⟨cleanCharsAux false w.data⟩ : String) = w
  rw [cleanCharsAux_of_clean hchars]

/-! ## C4: the count/length invariant -/

/-- A successful `find_all_matches` result satisfies the count/length
invariant. -/
theorem find_all_matches_ok_inv {fetch : String → Option Soup}
    {vocab : List String} {title : String} {mw : List String} {mc : Nat}
    {w : List String} {wc : Nat}
    (h : find_all_matches fetch vocab title = .ok (mw, mc, w, wc)) :
    mc = mw.length ∧ wc = w.length := by
  unfold find_all_matches at h
  cases hf : scrape_page fetch title with
  | none => rw [hf] at h; exact absurd h (by simp)
  | some soup =>
    rw [hf] at h
    simp only [Except.ok.injEq, Prod.mk.injEq] at h
    obtain ⟨rfl, rfl, rfl, rfl⟩ := h
    constructor
    · simp [find_keyword_matches_count]
    · rfl

/-- The subpage loop preserves the count/length invariant. -/
theorem subpages_loop_ok_inv {fetch : String → Option Soup}
    {vocab : List String} :
    ∀ {links : List String} {imw : List String} {imc : Nat}
      {iw : List String} {iwc : Nat} {mw : List String} {mc : Nat}
      {w : List String} {wc : Nat},
      imc = imw.length → iwc = iw.length →
      subpages_loop fetch vocab links imw imc iw iwc = .ok (mw, mc, w, wc) →
      mc = mw.length ∧ wc = w.length := by
  intro links
  induction links with
  | nil =>
    intro imw imc iw iwc mw mc w wc h1 h2 h
    simp only [subpages_loop, Except.ok.injEq, Prod.mk.injEq] at h
    obtain ⟨rfl, rfl, rfl, rfl⟩ := h
    exact ⟨h1, h2⟩
  | cons link rest ih =>
    intro imw imc iw iwc mw mc w wc h1 h2 h
    simp only [subpages_loop] at h
    cases hfam : find_all_matches fetch vocab (pyDrop link 6) with
    | error e => rw [hfam] at h; exact absurd h (by simp)
    | ok r =>
      obtain ⟨a, b, c, d⟩ := r
      rw [hfam] at h
      obtain ⟨hb, hd⟩ := find_all_matches_ok_inv hfam
      exact ih (by simp [h1, hb]) (by simp [h2, hd]) h

/-- A successful `search_subpages` result satisfies the count/length
invariant whenever the seed fields do. -/
theorem search_subpages_ok_inv {fetch : String → Option Soup}
    {vocab : List String} {title : String} {imw : List String} {imc : Nat}
    {iw : List String} {iwc : Nat} {mw : List String} {mc : Nat}
    {w : List String} {wc : Nat}
    (h1 : imc = imw.length) (h2 : iwc = iw.length)
    (h : search_subpages fetch vocab title imw imc iw iwc =
      .ok (mw, mc, w, wc)) :
    mc = mw.length ∧ wc = w.length := by
  unfold search_subpages at h
  cases hf : scrape_page fetch title with
  | none => rw [hf] at h; exact absurd h (by simp)
  | some soup => rw [hf] at h; exact subpages_loop_ok_inv h1 h2 h

/-- C4: for `find_keyword_matches`, `find_all_matches`, and
`search_subpages` (per page and aggregated), the match count equals the
length of the matched-words list and the total word count equals the
length of the total-words list. -/
theorem c4_count_equals_length :
    (∀ ws kw : List String,
      (find_keyword_matches ws kw).1 =
        (find_keyword_matches ws kw).2.length) ∧
    (∀ (fetch : String → Option Soup) (vocab : List String) (title : String)
        (mw : List String) (mc : Nat) (w : List String) (wc : Nat),
      find_all_matches fetch vocab title = .ok (mw, mc, w, wc) →
      mc = mw.length ∧ wc = w.length) ∧
    (∀ (fetch : String → Option Soup) (vocab : List String) (title : String)
        (imw : List String) (imc : Nat) (iw : List String) (iwc : Nat)
        (mw : List String) (mc : Nat) (w : List String) (wc : Nat),
      imc = imw.length → iwc = iw.length →
      search_subpages fetch vocab title imw imc iw iwc =
        .ok (mw, mc, w, wc) →
      mc = mw.length ∧ wc = w.length) :=
  ⟨fun ws kw => find_keyword_matches_count ws kw,
   fun _ _ _ _ _ _ _ h => find_all_matches_ok_inv h,
   fun _ _ _ _ _ _ _ _ _ _ _ h1 h2 h => search_subpages_ok_inv h1 h2 h⟩

/-- A concrete seed page for the witnesses: one paragraph, one qualifying
bullet item, one article link, one namespace link and one absent `href`. -/
def demoSeed : Soup :=
  ⟨["War and peace.[1]"], ["navy"], [some "/wiki/Sub", some "mailto:x", none]⟩

/-- A concrete linked page for the witnesses. -/
def demoSub : Soup := ⟨["army!"], [], []⟩

/-- A concrete network environment serving the two demo pages. -/
def demoFetch (t : String) : Option Soup :=
  if t = "A" then some demoSeed else if t = "Sub" then some demoSub else none

/-- The vocabulary used by the witnesses. -/
def demoVocab : List String := ["war", "army", "navy"]

/-- Witness for C4: a concrete traversal whose aggregated counts match the
list lengths. -/
theorem c4_witness :
    (2 : Nat) = (["x", "army"] : List String).length ∧
      (3 : Nat) = (["x", "y", "army"] : List String).length :=
  c4_count_equals_length.2.2 demoFetch demoVocab "A" ["x"] 1 ["x", "y"] 2
    ["x", "army"] 2 ["x", "y", "army"] 3 rfl rfl rfl

/-! ## C8: the one-hop traversal -/

/-- `find_all_matches` reads the network only at its own title. -/
theorem find_all_matches_congr {fetch fetch' : String → Option Soup}
    {vocab : List String} {title : String}
    (h : fetch title = fetch' title) :
    find_all_matches fetch vocab title = find_all_matches fetch' vocab title := by
  unfold find_all_matches scrape_page
  rw [h]

/-- Unfolded form of the subpage loop when every link's page aggregates
successfully: the four seed fields each grow by the per-link results, in
link order. -/
theorem subpages_loop_spec {fetch : String → Option Soup}
    {vocab : List String} (f1 : String → List String) (f2 : String → Nat)
    (f3 : String → List String) (f4 : String → Nat) :
    ∀ (links imw : List String) (imc : Nat) (iw : List String) (iwc : Nat),
      (∀ l ∈ links, find_all_matches fetch vocab (pyDrop l 6) =
        .ok (f1 l, f2 l, f3 l, f4 l)) →
      subpages_loop fetch vocab links imw imc iw iwc =
        .ok (imw ++ (links.map f1).flatten, imc + (links.map f2).sum,
             iw ++ (links.map f3).flatten, iwc + (links.map f4).sum) := by
  intro links
  induction links with
  | nil => intro imw imc iw iwc _; simp [subpages_loop]
  | cons link rest ih =>
    intro imw imc iw iwc h
    have hl := h link (List.mem_cons_self link rest)
    simp only [subpages_loop, hl]
    rw [ih _ _ _ _ fun l hl' => h l (List.mem_cons_of_mem link hl')]
    simp [List.append_assoc, Nat.add_assoc]

/-- The subpage loop reads the network only at the linked titles. -/
theorem subpages_loop_congr {fetch fetch' : String → Option Soup}
    {vocab : List String} :
    ∀ (links imw : List String) (imc : Nat) (iw : List String) (iwc : Nat),
      (∀ l ∈ links, fetch (pyDrop l 6) = fetch' (pyDrop l 6)) →
      subpages_loop fetch vocab links imw imc iw iwc =
        subpages_loop fetch' vocab links imw imc iw iwc := by
  intro links
  induction links with
  | nil => intro _ _ _ _ _; rfl
  | cons link rest ih =>
    intro imw imc iw iwc h
    simp only [subpages_loop,
      find_all_matches_congr (h link (List.mem_cons_self link rest))]
    cases hv : find_all_matches fetch' vocab (pyDrop link 6) with
    | error e => rfl
    | ok r =>
      obtain ⟨a, b, c, d⟩ := r
      exact ih _ _ _ _ fun l hl' => h l (List.mem_cons_of_mem link hl')

/-- C8: `search_subpages` runs `find_all_matches` once per filtered
outbound link of the seed page, on the link minus its first six characters,
and adds the four per-page fields into the aggregate in link order; and the
result depends on the network only through the seed page and the pages one
hop away, so links found on subpages are never traversed. -/
theorem c8_one_hop_traversal :
    (∀ (fetch : String → Option Soup) (vocab : List String) (title : String)
        (soup : Soup) (imw : List String) (imc : Nat) (iw : List String)
        (iwc : Nat) (f1 : String → List String) (f2 : String → Nat)
        (f3 : String → List String) (f4 : String → Nat),
      fetch title = some soup →
      (∀ l ∈ filter_links (find_links soup),
        find_all_matches fetch vocab (pyDrop l 6) =
          .ok (f1 l, f2 l, f3 l, f4 l)) →
      search_subpages fetch vocab title imw imc iw iwc =
        .ok (imw ++ ((filter_links (find_links soup)).map f1).flatten,
             imc + ((filter_links (find_links soup)).map f2).sum,
             iw ++ ((filter_links (find_links soup)).map f3).flatten,
             iwc + ((filter_links (find_links soup)).map f4).sum)) ∧
    (∀ (fetch fetch' : String → Option Soup) (vocab : List String)
        (title : String) (soup : Soup) (imw : List String) (imc : Nat)
        (iw : List String) (iwc : Nat),
      fetch title = some soup → fetch' title = some soup →
      (∀ l ∈ filter_links (find_links soup),
        fetch (pyDrop l 6) = fetch' (pyDrop l 6)) →
      search_subpages fetch vocab title imw imc iw iwc =
        search_subpages fetch' vocab title imw imc iw iwc) := by
  constructor
  · intro fetch vocab title soup imw imc iw iwc f1 f2 f3 f4 hf hlinks
    unfold search_subpages
    rw [show scrape_page fetch title = some soup from hf]
    exact subpages_loop_spec f1 f2 f3 f4 _ _ _ _ _ hlinks
  · intro fetch fetch' vocab title soup imw imc iw iwc hf hf' hlinks
    unfold search_subpages
    rw [show scrape_page fetch title = some soup from hf,
      show scrape_page fetch' title = some soup from hf']
    exact subpages_loop_congr _ _ _ _ _ hlinks

/-- Witness for C8 on the demo pages: the single filtered link
`"/wiki/Sub"` is aggregated once, and replacing the network beyond one hop
does not change the result. -/
theorem c8_witness :
    (search_subpages demoFetch demoVocab "A" ["x"] 1 ["x", "y"] 2 =
      .ok (["x"] ++
            ((filter_links (find_links demoSeed)).map fun _ => ["army"]).flatten,
           1 + ((filter_links (find_links demoSeed)).map fun _ => 1).sum,
           ["x", "y"] ++
            ((filter_links (find_links demoSeed)).map fun _ => ["army"]).flatten,
           2 + ((filter_links (find_links demoSeed)).map fun _ => 1).sum)) ∧
    search_subpages demoFetch demoVocab "A" ["x"] 1 ["x", "y"] 2 =
      search_subpages demoFetch demoVocab "A" ["x"] 1 ["x", "y"] 2 := by
  constructor
  · refine c8_one_hop_traversal.1 demoFetch demoVocab "A" demoSeed ["x"] 1
      ["x", "y"] 2 (fun _ => ["army"]) (fun _ => 1) (fun _ => ["army"])
      (fun _ => 1) rfl ?_
    intro l hl
    rw [show filter_links (find_links demoSeed) = ["/wiki/Sub"] from rfl] at hl
    rw [List.mem_singleton.mp hl]
    rfl
  · exact c8_one_hop_traversal.2 demoFetch demoFetch demoVocab "A" demoSeed
      ["x"] 1 ["x", "y"] 2 rfl rfl fun _ _ => rfl

/-! ## C5: lemmas about the persistence primitives -/

/-- A list none of whose characters is `':'` contains no `": "` separator. -/
theorem strInAux_colon_space_eq_false {l : List Char}
    (h : ∀ c ∈ l, c ≠ ':') : strInAux [':', ' '] l = false := by
  induction l with
  | nil => rfl
  | cons a t ih =>
    have ha := h a (List.mem_cons_self a t)
    have hpre : List.isPrefixOf [':', ' '] (a :: t) = false := by
      have : ((':' == a) && List.isPrefixOf [' '] t) =
          List.isPrefixOf [':', ' '] (a :: t) := rfl
      rw [← this]
      simp only [Bool.and_eq_false_iff, beq_eq_false_iff_ne, ne_eq]
      exact Or.inl fun hc => ha hc.symm
    have htail := ih fun c hc => h c (List.mem_cons_of_mem a hc)
    show (List.isPrefixOf [':', ' '] (a :: t) || strInAux [':', ' '] t) = false
    rw [hpre, htail]
    rfl

/-- Destructing "no `": "` occurrence" on a two-character head. -/
theorem strInAux_cons_cons {c1 c2 : Char} {rest : List Char}
    (h : strInAux [':', ' '] (c1 :: c2 :: rest) = false) :
    ¬(c1 = ':' ∧ c2 = ' ') ∧ strInAux [':', ' '] (c2 :: rest) = false := by
  have h' : (List.isPrefixOf [':', ' '] (c1 :: c2 :: rest)
      || strInAux [':', ' '] (c2 :: rest)) = false := h
  obtain ⟨hpre, htail⟩ := Bool.or_eq_false_iff.mp h'
  refine ⟨?_, htail⟩
  rintro ⟨rfl, rfl⟩
  have ht : List.isPrefixOf [':', ' '] (':' :: ' ' :: rest) = true := by
    simp [List.isPrefixOf]
  rw [ht] at hpre
  cases hpre

/-- Splitting on `": "` a list that contains no occurrence yields one part. -/
theorem splitCS_no_sep :
    ∀ (l acc : List Char), strInAux [':', ' '] l = false →
      splitOnColonSpace l acc = [acc.reverse ++ l] := by
  intro l
  induction l with
  | nil => intro acc _; simp [splitOnColonSpace]
  | cons c1 t ih =>
    intro acc h
    cases t with
    | nil => simp [splitOnColonSpace]
    | cons c2 rest =>
      obtain ⟨hnp, htail⟩ := strInAux_cons_cons h
      rw [splitOnColonSpace, if_neg hnp, ih (c1 :: acc) htail]
      simp

/-- Splitting on `": "` around the first separator: the prefix holds no
separator, so the split is the prefix followed by the split of the rest. -/
theorem splitCS_seam :
    ∀ (t p acc : List Char), strInAux [':', ' '] t = false →
      splitOnColonSpace (t ++ ':' :: ' ' :: p) acc =
        (acc.reverse ++ t) :: splitOnColonSpace p [] := by
  intro t
  induction t with
  | nil => intro p acc _; simp [splitOnColonSpace]
  | cons c1 t' ih =>
    intro p acc h
    cases t' with
    | nil =>
      have hne : ¬(c1 = ':' ∧ ':' = ' ') := fun hc => by cases hc.2
      simp [splitOnColonSpace, hne]
    | cons c2 rest =>
      obtain ⟨hnp, htail⟩ := strInAux_cons_cons h
      simp only [List.cons_append]
      rw [splitOnColonSpace, if_neg hnp, ← List.cons_append,
        ih p (c1 :: acc) htail]
      simp

/-- One `'\n'`-terminated line is peeled off the front of a file. -/
theorem pyLinesAux_body :
    ∀ (body rest acc : List Char), '\n' ∉ body →
      pyLinesAux (body ++ '\n' :: rest) acc =
        (acc.reverse ++ body ++ ['\n']) :: pyLinesAux rest [] := by
  intro body
  induction body with
  | nil =>
    intro rest acc _
    simp [pyLinesAux]
  | cons c b ih =>
    intro rest acc hnl
    have hc : ¬c = '\n' := fun h => hnl (h ▸ List.mem_cons_self c b)
    show pyLinesAux (c :: (b ++ '\n' :: rest)) acc = _
    rw [pyLinesAux, if_neg hc, ih rest (c :: acc)
      fun h => hnl (List.mem_cons_of_mem c h)]
    simp

/-- Python `s.strip()` on a newline-terminated chunk whose body neither
starts nor ends with whitespace removes exactly the newline. -/
theorem pyStrip_append_newline {l : List Char}
    (hh : ∀ c, l.head? = some c → c.isWhitespace = false)
    (hl : ∀ c, l.getLast? = some c → c.isWhitespace = false) :
    pyStrip (l ++ ['\n']) = l := by
  cases l with
  | nil => rfl
  | cons a t =>
    have ha : a.isWhitespace = false := hh a rfl
    unfold pyStrip
    have h1 : List.dropWhile Char.isWhitespace ((a :: t) ++ ['\n']) =
        (a :: t) ++ ['\n'] := by
      rw [List.cons_append, List.dropWhile_cons]
      simp [ha]
    rw [h1, List.reverse_append, List.reverse_singleton,
      List.singleton_append, List.dropWhile_cons]
    simp only [show ('\n').isWhitespace = true from rfl, if_true]
    cases hrev : (a :: t).reverse with
    | nil => exact absurd hrev (by simp)
    | cons b r =>
      have hb : b.isWhitespace = false := by
        apply hl
        rw [← List.head?_reverse, hrev]
        rfl
      rw [List.dropWhile_cons]
      simp only [hb, Bool.false_eq_true, if_false]
      rw [← hrev, List.reverse_reverse]

/-- Decimal digits: characters and value of `natDigitsAux`. -/
theorem natDigitsAux_spec :
    ∀ (fuel n : Nat), n < fuel →
      natDigitsAux fuel n ≠ [] ∧
      (∀ c ∈ natDigitsAux fuel n, c.isDigit = true) ∧
      (natDigitsAux fuel n).foldl
        (fun acc c => acc * 10 + (c.toNat - 48)) 0 = n := by
  have hdig : ∀ d : Nat, d < 10 →
      (digitChar d).isDigit = true ∧ (digitChar d).toNat - 48 = d := by decide
  intro fuel
  induction fuel with
  | zero => intro n hn; omega
  | succ fuel ih =>
    intro n hn
    by_cases h10 : n < 10
    · obtain ⟨hd, hv⟩ := hdig n h10
      refine ⟨by simp [natDigitsAux, h10], ?_, ?_⟩
      · intro c hc
        simp only [natDigitsAux, if_pos h10, List.mem_singleton] at hc
        exact hc ▸ hd
      · simp [natDigitsAux, h10, hv]
    · have hdiv : n / 10 < fuel := by
        have h1 : n / 10 < n := Nat.div_lt_self (by omega) (by omega)
        omega
      obtain ⟨hne, hds, hval⟩ := ih (n / 10) hdiv
      obtain ⟨hd, hv⟩ := hdig (n % 10) (Nat.mod_lt n (by omega))
      refine ⟨by simp [natDigitsAux, h10], ?_, ?_⟩
      · intro c hc
        simp only [natDigitsAux, if_neg h10, List.mem_append,
          List.mem_singleton] at hc
        rcases hc with hc | hc
        · exact hds c hc
        · exact hc ▸ hd
      · rw [natDigitsAux, if_neg h10, List.foldl_append]
        simp only [List.foldl_cons, List.foldl_nil, hval, hv]
        omega

/-- `natRepr` produces a non-empty all-digit string. -/
theorem natRepr_spec (n : Nat) :
    natRepr n ≠ [] ∧ (∀ c ∈ natRepr n, c.isDigit = true) ∧
      (natRepr n).foldl (fun acc c => acc * 10 + (c.toNat - 48)) 0 = n :=
  natDigitsAux_spec (n + 1) n (Nat.lt_succ_self n)

/-- Reloading a written count recovers it: `int(str(n)) = n`. -/
theorem pyInt_natRepr (n : Nat) : pyInt (natRepr n) = .ok n := by
  obtain ⟨hne, hds, hval⟩ := natRepr_spec n
  unfold pyInt
  rw [if_pos ⟨hne, List.all_eq_true.mpr hds⟩, hval]

/-- A digit character is not whitespace. -/
theorem isDigit_not_ws {c : Char} (h : c.isDigit = true) :
    c.isWhitespace = false := by
  cases hws : c.isWhitespace
  · rfl
  · exfalso
    simp only [Char.isWhitespace, Bool.or_eq_true, decide_eq_true_eq] at hws
    rcases hws with ((rfl | rfl) | rfl) | rfl <;> exact absurd h (by decide)

/-- A digit character is not `':'`. -/
theorem isDigit_ne_colon {c : Char} (h : c.isDigit = true) : c ≠ ':' := by
  rintro rfl
  exact absurd h (by decide)

/-- A digit character is not `'\n'`. -/
theorem isDigit_ne_newline {c : Char} (h : c.isDigit = true) : c ≠ '\n' := by
  rintro rfl
  exact absurd h (by decide)

/-- `String.mk` is inverse to `String.data`. -/
theorem string_mk_data (s : String) : String.mk s.data = s := rfl

/-- A `getLast?` value is a member of the list. -/
theorem mem_of_getLast?_eq {l : List Char} {c : Char}
    (h : l.getLast? = some c) : c ∈ l := by
  obtain ⟨hne, rfl⟩ := List.mem_getLast?_eq_getLast h
  exact List.getLast_mem hne

/-- Every character of a space-join is a space or comes from some word. -/
theorem mem_pyJoinSpace {c : Char} :
    ∀ {ws : List String}, c ∈ pyJoinSpace ws →
      c = ' ' ∨ ∃ w ∈ ws, c ∈ w.data := by
  intro ws
  induction ws with
  | nil => intro hc; simp [pyJoinSpace] at hc
  | cons w rest ih =>
    intro hc
    cases rest with
    | nil => exact Or.inr ⟨w, List.mem_cons_self _ _, hc⟩
    | cons w2 r2 =>
      rw [show pyJoinSpace (w :: w2 :: r2) =
          w.data ++ ' ' :: pyJoinSpace (w2 :: r2) from rfl] at hc
      rcases List.mem_append.mp hc with hc | hc
      · exact Or.inr ⟨w, List.mem_cons_self _ _, hc⟩
      · rcases List.mem_cons.mp hc with rfl | hc
        · exact Or.inl rfl
        · rcases ih hc with h' | ⟨w', hw', hcw⟩
          · exact Or.inl h'
          · exact Or.inr ⟨w', List.mem_cons_of_mem _ hw', hcw⟩

/-- A space-join starting from a non-empty word is non-empty. -/
theorem pyJoinSpace_ne_nil {w : String} {rest : List String}
    (hw : w.data ≠ []) : pyJoinSpace (w :: rest) ≠ [] := by
  cases rest with
  | nil => exact hw
  | cons w2 r2 =>
    show w.data ++ ' ' :: pyJoinSpace (w2 :: r2) ≠ []
    simp

/-- The first character of a join of non-empty whitespace-free words is not
whitespace. -/
theorem pyJoinSpace_head_nonws {ws : List String}
    (h : ∀ w ∈ ws, w.data ≠ [] ∧ ∀ c ∈ w.data, c.isWhitespace = false) :
    ∀ c, (pyJoinSpace ws).head? = some c → c.isWhitespace = false := by
  intro c hc
  cases ws with
  | nil => simp [pyJoinSpace] at hc
  | cons w rest =>
    obtain ⟨hwne, hwc⟩ := h w (List.mem_cons_self w rest)
    obtain ⟨a, t, hat⟩ : ∃ a t, w.data = a :: t := by
      cases hd : w.data with
      | nil => exact absurd hd hwne
      | cons a t => exact ⟨a, t, rfl⟩
    obtain ⟨tl, htl⟩ : ∃ tl, pyJoinSpace (w :: rest) = w.data ++ tl := by
      cases rest with
      | nil => exact ⟨[], by simp [pyJoinSpace]⟩
      | cons w2 r2 => exact ⟨' ' :: pyJoinSpace (w2 :: r2), rfl⟩
    rw [htl, hat] at hc
    simp only [List.cons_append, List.head?_cons, Option.some.injEq] at hc
    exact hc ▸ hwc a (by rw [hat]; exact List.mem_cons_self _ _)

/-- The last character of a join of non-empty whitespace-free words is not
whitespace. -/
theorem pyJoinSpace_getLast_nonws :
    ∀ {ws : List String},
      (∀ w ∈ ws, w.data ≠ [] ∧ ∀ c ∈ w.data, c.isWhitespace = false) →
      ∀ c, (pyJoinSpace ws).getLast? = some c → c.isWhitespace = false := by
  intro ws
  induction ws with
  | nil => intro _ c hc; simp [pyJoinSpace] at hc
  | cons w rest ih =>
    intro h c hc
    cases rest with
    | nil =>
      obtain ⟨-, hwc⟩ := h w (List.mem_cons_self w [])
      exact hwc c (mem_of_getLast?_eq hc)
    | cons w2 r2 =>
      rw [show pyJoinSpace (w :: w2 :: r2) =
          w.data ++ ' ' :: pyJoinSpace (w2 :: r2) from rfl,
        List.getLast?_append_cons] at hc
      have hne : pyJoinSpace (w2 :: r2) ≠ [] :=
        pyJoinSpace_ne_nil (h w2 (by simp)).1
      rw [show (' ' :: pyJoinSpace (w2 :: r2)) =
          [' '] ++ pyJoinSpace (w2 :: r2) from rfl,
        List.getLast?_append_of_ne_nil _ hne] at hc
      exact ih (fun w' hw' => h w' (List.mem_cons_of_mem _ hw')) c hc

/-- Consuming a whitespace-free run moves it into the current chunk. -/
theorem pySplitAux_nonws_append :
    ∀ (a l cur : List Char), (∀ c ∈ a, c.isWhitespace = false) →
      pySplitAux (a ++ l) cur = pySplitAux l (a.reverse ++ cur) := by
  intro a
  induction a with
  | nil => intro l cur _; simp
  | cons x xs ih =>
    intro l cur h
    have hx := h x (List.mem_cons_self x xs)
    show pySplitAux (x :: (xs ++ l)) cur = _
    rw [pySplitAux, if_neg (by simp [hx])]
    rw [ih l (x :: cur) fun c hc => h c (List.mem_cons_of_mem x hc)]
    simp

/-- Python `split()` recovers the words from their space-join when every
word is non-empty and whitespace-free. -/
theorem pySplitAux_join :
    ∀ {ws : List String},
      (∀ w ∈ ws, w.data ≠ [] ∧ ∀ c ∈ w.data, c.isWhitespace = false) →
      pySplitAux (pyJoinSpace ws) [] = ws := by
  intro ws
  induction ws with
  | nil => intro _; rfl
  | cons w rest ih =>
    intro h
    obtain ⟨hwne, hwc⟩ := h w (List.mem_cons_self w rest)
    cases rest with
    | nil =>
      show pySplitAux w.data [] = [w]
      rw [← List.append_nil w.data, pySplitAux_nonws_append _ _ _ hwc]
      simp only [pySplitAux]
      rw [if_neg (by simp [hwne])]
      simp [string_mk_data]
    | cons w2 r2 =>
      show pySplitAux (w.data ++ ' ' :: pyJoinSpace (w2 :: r2)) [] = _
      rw [pySplitAux_nonws_append _ _ _ hwc]
      rw [pySplitAux, if_pos (by decide)]
      rw [if_neg (by simp [hwne])]
      rw [ih fun w' hw' => h w' (List.mem_cons_of_mem _ hw')]
      simp [string_mk_data]

/-- Assigning a fresh key to a dict appends the pair. -/
theorem dictInsert_append {α : Type} :
    ∀ (d : List (String × α)) (k : String) (v : α),
      (∀ p ∈ d, p.1 ≠ k) → dictInsert d k v = d ++ [(k, v)] := by
  intro d k v
  induction d with
  | nil => intro _; rfl
  | cons p rest ih =>
    intro h
    obtain ⟨k', v'⟩ := p
    have hk : k' ≠ k := h (k', v') (List.mem_cons_self _ _)
    show (if k' = k then _ else _) = _
    rw [if_neg hk, ih fun q hq => h q (List.mem_cons_of_mem _ hq)]
    rfl

/-- Looking up a key of a duplicate-free assoc list after mapping its
values retrieves the mapped value. -/
theorem dictGet_map_of_mem {α : Type} (f : DisciplineResult → α) :
    ∀ (dm : List (String × DisciplineResult)) (t : String)
      (r : DisciplineResult),
      (dm.map Prod.fst).Nodup → (t, r) ∈ dm →
      dictGet (dm.map fun p => (p.1, f p.2)) t = .ok (f r) := by
  intro dm
  induction dm with
  | nil => intro t r _ hm; simp at hm
  | cons p rest ih =>
    intro t r hnd hm
    obtain ⟨k, v⟩ := p
    rw [List.map_cons, List.nodup_cons] at hnd
    by_cases hk : k = t
    · subst hk
      rcases List.mem_cons.mp hm with heq | hmem
      · obtain ⟨-, rfl⟩ := Prod.mk.injEq .. |>.mp heq.symm
        show (if k = k then Except.ok (f v) else _) = _
        rw [if_pos rfl]
      · exact absurd (List.mem_map.mpr ⟨(k, r), hmem, rfl⟩) hnd.1
    · have hm' : (t, r) ∈ rest := by
        rcases List.mem_cons.mp hm with heq | hmem
        · exact absurd congr(Prod.fst $heq).symm hk
        · exact hmem
      show (if k = t then _ else _) = _
      rw [if_neg hk]
      exact ih t r hnd.2 hm'

/-- A `head?` value is a member of the list. -/
theorem mem_of_head?_eq {l : List Char} {c : Char}
    (h : l.head? = some c) : c ∈ l := by
  rw [List.eq_cons_of_mem_head? h]
  exact List.mem_cons_self _ _

/-- Parsing one written words line: the split recovers the topic and the
payload, and strip-then-split recovers the word list. -/
theorem parse_words_line (t : String) (ws : List String)
    (ht : strInAux [':', ' '] t.data = false)
    (hws : ∀ w ∈ ws, w.data ≠ [] ∧
      ∀ c ∈ w.data, c.isWhitespace = false ∧ c ≠ ':') :
    unpackTwo (splitOnColonSpace (fileLine t (pyJoinSpace ws)) []) =
      .ok (t.data, pyJoinSpace ws ++ ['\n']) ∧
    pySplitAux (pyStrip (pyJoinSpace ws ++ ['\n'])) [] = ws := by
  have hwsA : ∀ w ∈ ws, w.data ≠ [] ∧ ∀ c ∈ w.data, c.isWhitespace = false :=
    fun w hw => ⟨(hws w hw).1, fun c hc => ((hws w hw).2 c hc).1⟩
  have hnosep : strInAux [':', ' '] (pyJoinSpace ws ++ ['\n']) = false := by
    apply strInAux_colon_space_eq_false
    intro c hc
    rcases List.mem_append.mp hc with hc | hc
    · rcases mem_pyJoinSpace hc with rfl | ⟨w, hw, hcw⟩
      · decide
      · exact ((hws w hw).2 c hcw).2
    · obtain rfl := List.mem_singleton.mp hc
      decide
  constructor
  · have hshape : fileLine t (pyJoinSpace ws) =
        t.data ++ ':' :: ' ' :: (pyJoinSpace ws ++ ['\n']) := by
      unfold fileLine
      simp [List.append_assoc]
    rw [hshape, splitCS_seam _ _ _ ht, splitCS_no_sep _ _ hnosep]
    simp [unpackTwo]
  · rw [pyStrip_append_newline (pyJoinSpace_head_nonws hwsA)
      (pyJoinSpace_getLast_nonws hwsA)]
    exact pySplitAux_join hwsA

/-- Parsing one written counts line: the split recovers the topic and the
payload, and strip-then-`int` recovers the count. -/
theorem parse_counts_line (t : String) (n : Nat)
    (ht : strInAux [':', ' '] t.data = false) :
    unpackTwo (splitOnColonSpace (fileLine t (natRepr n)) []) =
      .ok (t.data, natRepr n ++ ['\n']) ∧
    pyInt (pyStrip (natRepr n ++ ['\n'])) = .ok n := by
  obtain ⟨-, hds, -⟩ := natRepr_spec n
  have hnosep : strInAux [':', ' '] (natRepr n ++ ['\n']) = false := by
    apply strInAux_colon_space_eq_false
    intro c hc
    rcases List.mem_append.mp hc with hc | hc
    · exact isDigit_ne_colon (hds c hc)
    · obtain rfl := List.mem_singleton.mp hc
      decide
  constructor
  · have hshape : fileLine t (natRepr n) =
        t.data ++ ':' :: ' ' :: (natRepr n ++ ['\n']) := by
      unfold fileLine
      simp [List.append_assoc]
    rw [hshape, splitCS_seam _ _ _ ht, splitCS_no_sep _ _ hnosep]
    simp [unpackTwo]
  · rw [pyStrip_append_newline
      (fun c hc => isDigit_not_ws (hds c (mem_of_head?_eq hc)))
      (fun c hc => isDigit_not_ws (hds c (mem_of_getLast?_eq hc)))]
    exact pyInt_natRepr n

/-- The written file contents split back into exactly the written lines. -/
theorem pyLines_file (g : String × DisciplineResult → List Char) :
    ∀ (entries : List (String × DisciplineResult)),
      (∀ p ∈ entries, '\n' ∉ p.1.data ∧ '\n' ∉ g p) →
      pyLines ((entries.map fun p => fileLine p.1 (g p)).flatten) =
        entries.map fun p => fileLine p.1 (g p) := by
  intro entries
  induction entries with
  | nil => intro _; rfl
  | cons p rest ih =>
    intro h
    obtain ⟨ht, hg⟩ := h p (List.mem_cons_self p rest)
    have hbody : '\n' ∉ p.1.data ++ ':' :: ' ' :: g p := by
      intro hmem
      rcases List.mem_append.mp hmem with hmem | hmem
      · exact ht hmem
      · rcases List.mem_cons.mp hmem with heq | hmem
        · cases heq
        · rcases List.mem_cons.mp hmem with heq | hmem
          · cases heq
          · exact hg hmem
    unfold pyLines
    rw [List.map_cons, List.flatten_cons,
      show fileLine p.1 (g p) ++
          (rest.map fun q => fileLine q.1 (g q)).flatten =
        (p.1.data ++ ':' :: ' ' :: g p) ++
          '\n' :: (rest.map fun q => fileLine q.1 (g q)).flatten by
        simp [fileLine, List.append_assoc],
      pyLinesAux_body _ _ [] hbody]
    rw [show pyLinesAux ((rest.map fun q => fileLine q.1 (g q)).flatten) [] =
        pyLines ((rest.map fun q => fileLine q.1 (g q)).flatten) from rfl,
      ih fun q hq => h q (List.mem_cons_of_mem _ hq)]
    simp [fileLine, List.append_assoc]

/-- The words-file reload loop over written lines rebuilds the selected
field map, appended after the accumulator. -/
theorem parseWordsLoop_spec (sel : DisciplineResult → List String) :
    ∀ (entries : List (String × DisciplineResult))
      (acc : List (String × List String)),
      (∀ p ∈ entries, strInAux [':', ' '] p.1.data = false ∧
        ∀ w ∈ sel p.2, w.data ≠ [] ∧
          ∀ c ∈ w.data, c.isWhitespace = false ∧ c ≠ ':') →
      (entries.map Prod.fst).Nodup →
      (∀ p ∈ entries, ∀ q ∈ acc, q.1 ≠ p.1) →
      parseWordsLoop
          (entries.map fun p => fileLine p.1 (pyJoinSpace (sel p.2))) acc =
        .ok (acc ++ entries.map fun p => (p.1, sel p.2)) := by
  intro entries
  induction entries with
  | nil => intro acc _ _ _; simp [parseWordsLoop]
  | cons p rest ih =>
    intro acc h hnd hacc
    obtain ⟨t, r⟩ := p
    obtain ⟨ht, hws⟩ := h (t, r) (List.mem_cons_self _ _)
    obtain ⟨hline, hsplit⟩ := parse_words_line t (sel r) ht hws
    rw [List.map_cons, parseWordsLoop, hline]
    dsimp only
    rw [List.map_cons, List.nodup_cons] at hnd
    have hfresh : ∀ q ∈ acc, q.1 ≠ t :=
      fun q hq => hacc (t, r) (List.mem_cons_self _ _) q hq
    rw [hsplit, string_mk_data, dictInsert_append acc t (sel r) hfresh]
    rw [ih (acc ++ [(t, sel r)])
      (fun q hq => h q (List.mem_cons_of_mem _ hq)) hnd.2 ?_]
    · simp
    · intro q hq s hs
      rcases List.mem_append.mp hs with hs | hs
      · exact hacc q (List.mem_cons_of_mem _ hq) s hs
      · obtain rfl := List.mem_singleton.mp hs
        intro hst
        exact hnd.1 (hst ▸ List.mem_map.mpr ⟨q, hq, rfl⟩)

/-- The counts-file reload loop over written lines rebuilds the selected
count map, appended after the accumulator. -/
theorem parseCountsLoop_spec (sel : DisciplineResult → Nat) :
    ∀ (entries : List (String × DisciplineResult))
      (acc : List (String × Nat)),
      (∀ p ∈ entries, strInAux [':', ' '] p.1.data = false) →
      (entries.map Prod.fst).Nodup →
      (∀ p ∈ entries, ∀ q ∈ acc, q.1 ≠ p.1) →
      parseCountsLoop
          (entries.map fun p => fileLine p.1 (natRepr (sel p.2))) acc =
        .ok (acc ++ entries.map fun p => (p.1, sel p.2)) := by
  intro entries
  induction entries with
  | nil => intro acc _ _ _; simp [parseCountsLoop]
  | cons p rest ih =>
    intro acc h hnd hacc
    obtain ⟨t, r⟩ := p
    have ht := h (t, r) (List.mem_cons_self _ _)
    obtain ⟨hline, hint⟩ := parse_counts_line t (sel r) ht
    rw [List.map_cons, parseCountsLoop, hline]
    dsimp only
    rw [hint]
    dsimp only
    rw [List.map_cons, List.nodup_cons] at hnd
    have hfresh : ∀ q ∈ acc, q.1 ≠ t :=
      fun q hq => hacc (t, r) (List.mem_cons_self _ _) q hq
    rw [string_mk_data, dictInsert_append acc t (sel r) hfresh]
    rw [ih (acc ++ [(t, sel r)])
      (fun q hq => h q (List.mem_cons_of_mem _ hq)) hnd.2 ?_]
    · simp
    · intro q hq s hs
      rcases List.mem_append.mp hs with hs | hs
      · exact hacc q (List.mem_cons_of_mem _ hq) s hs
      · obtain rfl := List.mem_singleton.mp hs
        intro hst
        exact hnd.1 (hst ▸ List.mem_map.mpr ⟨q, hq, rfl⟩)

/-- The assembly loop of `create_discipline_matches` rebuilds the aggregate
map when every lookup succeeds on the right value. -/
theorem buildFinalAux_spec (twD : List (String × List String))
    (fmcD twcD : List (String × Nat)) :
    ∀ (entries acc : List (String × DisciplineResult)),
      (∀ p ∈ entries,
        dictGet fmcD p.1 = .ok p.2.final_match_count ∧
        dictGet twD p.1 = .ok p.2.total_words ∧
        dictGet twcD p.1 = .ok p.2.total_word_count) →
      (entries.map Prod.fst).Nodup →
      (∀ p ∈ entries, ∀ q ∈ acc, q.1 ≠ p.1) →
      buildFinalAux twD fmcD twcD
          (entries.map fun p => (p.1, p.2.final_matched_words)) acc =
        .ok (acc ++ entries) := by
  intro entries
  induction entries with
  | nil => intro acc _ _ _; simp [buildFinalAux]
  | cons p rest ih =>
    intro acc h hnd hacc
    obtain ⟨t, r⟩ := p
    obtain ⟨hc, htw, htc⟩ := h (t, r) (List.mem_cons_self _ _)
    rw [List.map_cons, buildFinalAux, hc, htw, htc]
    dsimp only
    rw [List.map_cons, List.nodup_cons] at hnd
    have hfresh : ∀ q ∈ acc, q.1 ≠ t :=
      fun q hq => hacc (t, r) (List.mem_cons_self _ _) q hq
    rw [dictInsert_append acc t r hfresh]
    rw [ih (acc ++ [(t, r)])
      (fun q hq => h q (List.mem_cons_of_mem _ hq)) hnd.2 ?_]
    · simp
    · intro q hq s hs
      rcases List.mem_append.mp hs with hs | hs
      · exact hacc q (List.mem_cons_of_mem _ hq) s hs
      · obtain rfl := List.mem_singleton.mp hs
        intro hst
        exact hnd.1 (hst ▸ List.mem_map.mpr ⟨q, hq, rfl⟩)

/-- C5: writing an aggregate map whose topic names contain no `": "`
separator (and no newline) and whose word lists are space-delimited —
non-empty, whitespace-free words — with no embedded colons, then reloading
the four files, reproduces the aggregate map field by field, per topic. -/
theorem c5_write_reload_round_trip (dm : List (String × DisciplineResult))
    (hkeys : (dm.map Prod.fst).Nodup)
    (htopics : ∀ p ∈ dm, pyIn ": " p.1 = false ∧ '\n' ∉ p.1.data)
    (hwords : ∀ p ∈ dm, ∀ w ∈ p.2.final_matched_words ++ p.2.total_words,
      w.data ≠ [] ∧ ∀ c ∈ w.data, c.isWhitespace = false ∧ c ≠ ':') :
    create_discipline_matches (write_to_files dm).1 (write_to_files dm).2.1
      (write_to_files dm).2.2.1 (write_to_files dm).2.2.2 = .ok dm := by
  have hsep : ∀ p ∈ dm, strInAux [':', ' '] p.1.data = false :=
    fun p hp => (htopics p hp).1
  have hw1 : ∀ p ∈ dm, ∀ w ∈ p.2.final_matched_words, w.data ≠ [] ∧
      ∀ c ∈ w.data, c.isWhitespace = false ∧ c ≠ ':' :=
    fun p hp w hw => hwords p hp w (List.mem_append_left _ hw)
  have hw2 : ∀ p ∈ dm, ∀ w ∈ p.2.total_words, w.data ≠ [] ∧
      ∀ c ∈ w.data, c.isWhitespace = false ∧ c ≠ ':' :=
    fun p hp w hw => hwords p hp w (List.mem_append_right _ hw)
  have hnlj : ∀ (p : String × DisciplineResult), p ∈ dm →
      ∀ ws, (∀ w ∈ ws, w.data ≠ [] ∧
        ∀ c ∈ w.data, c.isWhitespace = false ∧ c ≠ ':') →
      '\n' ∉ pyJoinSpace ws := by
    intro p _ ws hws hmem
    rcases mem_pyJoinSpace hmem with h' | ⟨w, hw, hcw⟩
    · cases h'
    · exact absurd ((hws w hw).2 '\n' hcw).1 (by decide)
  -- the four parsed dictionaries
  have hfile1 : parseWordsFile (write_to_files dm).1 =
      .ok (dm.map fun p => (p.1, p.2.final_matched_words)) := by
    have hpl := pyLines_file (fun p => pyJoinSpace p.2.final_matched_words)
      dm (fun p hp => ⟨(htopics p hp).2, hnlj p hp _ (hw1 p hp)⟩)
    have hlp := parseWordsLoop_spec (fun r => r.final_matched_words) dm []
      (fun p hp => ⟨hsep p hp, hw1 p hp⟩) hkeys (fun _ _ _ hq => absurd hq
        (List.not_mem_nil _))
    dsimp only at hpl hlp
    show parseWordsLoop (pyLines ((dm.map fun p =>
      fileLine p.1 (pyJoinSpace p.2.final_matched_words)).flatten)) [] = _
    rw [hpl, hlp]
    simp
  have hfile2 : parseWordsFile (write_to_files dm).2.1 =
      .ok (dm.map fun p => (p.1, p.2.total_words)) := by
    have hpl := pyLines_file (fun p => pyJoinSpace p.2.total_words)
      dm (fun p hp => ⟨(htopics p hp).2, hnlj p hp _ (hw2 p hp)⟩)
    have hlp := parseWordsLoop_spec (fun r => r.total_words) dm []
      (fun p hp => ⟨hsep p hp, hw2 p hp⟩) hkeys (fun _ _ _ hq => absurd hq
        (List.not_mem_nil _))
    dsimp only at hpl hlp
    show parseWordsLoop (pyLines ((dm.map fun p =>
      fileLine p.1 (pyJoinSpace p.2.total_words)).flatten)) [] = _
    rw [hpl, hlp]
    simp
  have hnlc : ∀ (n : Nat), '\n' ∉ natRepr n := by
    intro n hmem
    exact isDigit_ne_newline ((natRepr_spec n).2.1 '\n' hmem) rfl
  have hfile3 : parseCountsFile (write_to_files dm).2.2.1 =
      .ok (dm.map fun p => (p.1, p.2.final_match_count)) := by
    have hpl := pyLines_file (fun p => natRepr p.2.final_match_count)
      dm (fun p hp => ⟨(htopics p hp).2, hnlc _⟩)
    have hlp := parseCountsLoop_spec (fun r => r.final_match_count) dm []
      hsep hkeys (fun _ _ _ hq => absurd hq (List.not_mem_nil _))
    dsimp only at hpl hlp
    show parseCountsLoop (pyLines ((dm.map fun p =>
      fileLine p.1 (natRepr p.2.final_match_count)).flatten)) [] = _
    rw [hpl, hlp]
    simp
  have hfile4 : parseCountsFile (write_to_files dm).2.2.2 =
      .ok (dm.map fun p => (p.1, p.2.total_word_count)) := by
    have hpl := pyLines_file (fun p => natRepr p.2.total_word_count)
      dm (fun p hp => ⟨(htopics p hp).2, hnlc _⟩)
    have hlp := parseCountsLoop_spec (fun r => r.total_word_count) dm []
      hsep hkeys (fun _ _ _ hq => absurd hq (List.not_mem_nil _))
    dsimp only at hpl hlp
    show parseCountsLoop (pyLines ((dm.map fun p =>
      fileLine p.1 (natRepr p.2.total_word_count)).flatten)) [] = _
    rw [hpl, hlp]
    simp
  -- assemble
  rw [create_discipline_matches, hfile1]
  dsimp only
  rw [hfile2]
  dsimp only
  rw [hfile3]
  dsimp only
  rw [hfile4]
  dsimp only
  have hasm := buildFinalAux_spec
    (dm.map fun p => (p.1, p.2.total_words))
    (dm.map fun p => (p.1, p.2.final_match_count))
    (dm.map fun p => (p.1, p.2.total_word_count)) dm []
    (fun p hp =>
      ⟨dictGet_map_of_mem (fun r => r.final_match_count) dm p.1 p.2 hkeys hp,
       dictGet_map_of_mem (fun r => r.total_words) dm p.1 p.2 hkeys hp,
       dictGet_map_of_mem (fun r => r.total_word_count) dm p.1 p.2 hkeys hp⟩)
    hkeys (fun _ _ _ hq => absurd hq (List.not_mem_nil _))
  rw [hasm]
  simp

/-- Witness for C5: a concrete two-topic aggregate map survives the write
and reload round trip. -/
theorem c5_witness :
    create_discipline_matches
      (write_to_files [("Mech", ⟨["war"], 1, ["war", "and", "peace"], 3⟩),
        ("Civil", ⟨[], 0, [], 0⟩)]).1
      (write_to_files [("Mech", ⟨["war"], 1, ["war", "and", "peace"], 3⟩),
        ("Civil", ⟨[], 0, [], 0⟩)]).2.1
      (write_to_files [("Mech", ⟨["war"], 1, ["war", "and", "peace"], 3⟩),
        ("Civil", ⟨[], 0, [], 0⟩)]).2.2.1
      (write_to_files [("Mech", ⟨["war"], 1, ["war", "and", "peace"], 3⟩),
        ("Civil", ⟨[], 0, [], 0⟩)]).2.2.2 =
      .ok [("Mech", ⟨["war"], 1, ["war", "and", "peace"], 3⟩),
        ("Civil", ⟨[], 0, [], 0⟩)] :=
  c5_write_reload_round_trip
    [("Mech", ⟨["war"], 1, ["war", "and", "peace"], 3⟩),
     ("Civil", ⟨[], 0, [], 0⟩)]
    (by decide) (by decide) (by decide)

end MIC
